import Mathlib

/-!
Shallow embedding of the change-detection core of `src/diff_analyzer.py`
(class `DiffAnalyzer`): article extraction from a parsed markup tree,
version comparison by identity key, and diff-result assembly.

Markup is modelled at the parsed-tree level (`Node`), the form BeautifulSoup
hands to the extraction code; positions in the document are paths from the
root, which lets the embedding express BeautifulSoup's document-order
operations (`select`, `find_next`, `next_sibling`) faithfully.
-/

namespace BlogDiff

/-- A position in the document tree: the list of child indices from the root. -/
abbrev Path := List Nat

/-- A parsed markup node: an element with a tag name, attributes and children,
or a text node (BeautifulSoup's NavigableString). -/
inductive Node where
  | elem (tag : String) (attrs : List (String × String)) (children : List Node)
  | text (s : String)

/-- One extracted article record, the dict built by `_extract_article_data` /
`_extract_article_from_heading`: each key is optional. -/
structure Article where
  title : Option String
  url : Option String
  date : Option String
  content : Option String
deriving DecidableEq, Repr

/-- The changed-article record built in `_compare_versions`. -/
structure ChangedArticle where
  title : Option String
  url : Option String
  previous_content : Option String
  current_content : Option String
deriving DecidableEq, Repr

/-- The diff result dict assembled by `generate_diff` / `_compare_versions`. -/
structure DiffResult where
  url : String
  domain : String
  current_date : String
  previous_date : Option String
  has_changes : Bool
  new_articles : List Article
  changed_articles : List ChangedArticle
  removed_articles : List Article
deriving DecidableEq, Repr

/-- The tag name of a node (`None` for a text node, like `.name` in bs4). -/
def tagOf : Node → Option String
  | .elem t _ _ => some t
  | .text _ => none

/-- Attribute lookup on an element (`elem[attr]` / `has_attr` in bs4). -/
def attrOf : Node → String → Option String
  | .elem _ attrs _, a => (attrs.find? (fun kv => kv.1 = a)).map (fun kv => kv.2)
  | .text _, _ => none

/-- The children of a node. -/
def childrenOf : Node → List Node
  | .elem _ _ cs => cs
  | .text _ => []

mutual

/-- `get_text()`: concatenation of all text descendants, in document order. -/
def getText : Node → String
  | .text s => s
  | .elem _ _ cs => getTextList cs

/-- `get_text()` over a list of children. -/
def getTextList : List Node → String
  | [] => ""
  | c :: cs => getText c ++ getTextList cs

end

/-- bs4's `.string`: the single text content of a chain of single children. -/
def nodeString : Node → Option String
  | .text s => some s
  | .elem _ _ [c] => nodeString c
  | .elem _ _ _ => none

mutual

/-- Paths of a subtree rooted at path `p`, itself included, in pre-order
(bs4 document order). -/
def subtreePaths (p : Path) : Node → List Path
  | .text _ => [p]
  | .elem _ _ cs => p :: childPaths p 0 cs

/-- Paths of the subtrees of a list of children starting at index `i`. -/
def childPaths (p : Path) (i : Nat) : List Node → List Path
  | [] => []
  | c :: cs => subtreePaths (p ++ [i]) c ++ childPaths p (i + 1) cs

end

/-- The node at a path, when the path exists. -/
def nodeAt : Node → Path → Option Node
  | n, [] => some n
  | .text _, _ :: _ => none
  | .elem _ _ cs, i :: p =>
      match cs[i]? with
      | some c => nodeAt c p
      | none => none

/-- Paths of the strict descendants of the node at `p`, in document order:
the search space of bs4's `select`, `find`, `find_all` on that element. -/
def descPaths (root : Node) (p : Path) : List Path :=
  match nodeAt root p with
  | some n => (subtreePaths p n).tail
  | none => []

/-- Every path of the document, in document order. -/
def docPaths (root : Node) : List Path :=
  subtreePaths [] root

/-- Paths strictly after `p` in document order, `p`'s own descendants first:
the search space of bs4's `find_next`. -/
def afterPaths (root : Node) (p : Path) : List Path :=
  ((docPaths root).dropWhile (fun q => q != p)).tail

/-- Paths of the siblings following the node at `p` (bs4's `next_sibling`
chain), text nodes included. -/
def siblingsAfter (root : Node) (p : Path) : List Path :=
  match p.getLast?, nodeAt root p.dropLast with
  | some i, some par =>
      ((List.range (childrenOf par).length).filter (fun j => i < j)).map
        (fun j => p.dropLast ++ [j])
  | _, _ => []

/-- One alternative of a CSS selector as used by the source: a tag name,
a class (`.foo`), an attribute substring test (`[a*="v"]`), or an attribute
presence test (`[a]`). -/
inductive Sel where
  | tag (name : String)
  | cls (name : String)
  | attrContains (attr : String) (sub : String)
  | attrPresent (attr : String)

/-- Python's `str.strip()`: drop leading and trailing whitespace characters. -/
def pyStrip (s : String) : String :=
  String.mk (((s.toList.dropWhile Char.isWhitespace).reverse.dropWhile
    Char.isWhitespace).reverse)

/-- The non-empty maximal whitespace-free runs of a character list. -/
def wordsAux : List Char → List Char → List (List Char)
  | [], acc => if acc.isEmpty then [] else [acc.reverse]
  | c :: cs, acc =>
      if c.isWhitespace then
        if acc.isEmpty then wordsAux cs [] else acc.reverse :: wordsAux cs []
      else wordsAux cs (c :: acc)

/-- The whitespace-separated words of a `class` attribute value. -/
def classList (v : String) : List String :=
  (wordsAux v.toList []).map String.mk

/-- Substring test on strings. -/
def strContains (s sub : String) : Bool :=
  s.toList.tails.any (fun t => sub.toList.isPrefixOf t)

/-- Whether a node matches one selector alternative; text nodes never match. -/
def matchesSel (n : Node) : Sel → Bool
  | .tag t => tagOf n == some t
  | .cls c =>
      match attrOf n "class" with
      | some v => (classList v).contains c
      | none => false
  | .attrContains a sub =>
      match attrOf n a with
      | some v => strContains v sub
      | none => false
  | .attrPresent a => (attrOf n a).isSome

/-- Whether the node at path `q` matches any alternative of a selector group. -/
def selMatchAt (root : Node) (g : List Sel) (q : Path) : Bool :=
  match nodeAt root q with
  | some n => g.any (fun s => matchesSel n s)
  | none => false

/-- bs4 `element.select(sel)`: all descendant paths matching the group, in
document order. -/
def select (root : Node) (p : Path) (g : List Sel) : List Path :=
  (descPaths root p).filter (selMatchAt root g)

/-- bs4 `element.select_one(sel)`: the first descendant, in document order,
matching any alternative of the group. -/
def selectOne (root : Node) (p : Path) (g : List Sel) : Option Path :=
  (select root p g).head?

/-- bs4 `element.find(...)` with a node predicate: first matching strict
descendant in document order. -/
def findDesc (root : Node) (p : Path) (f : Node → Bool) : Option Path :=
  (descPaths root p).find? (fun q =>
    match nodeAt root q with
    | some n => f n
    | none => false)

/-- bs4 `element.find_all(...)` with a node predicate: all matching strict
descendants in document order. -/
def findAllDesc (root : Node) (p : Path) (f : Node → Bool) : List Path :=
  (descPaths root p).filter (fun q =>
    match nodeAt root q with
    | some n => f n
    | none => false)

/-- bs4 `element.find_next(...)` with a node predicate: first match among the
nodes after `p` in document order. -/
def findNext (root : Node) (p : Path) (f : Node → Bool) : Option Path :=
  (afterPaths root p).find? (fun q =>
    match nodeAt root q with
    | some n => f n
    | none => false)

/-- Whether a node is an element with the given tag. -/
def tagIs (n : Node) (t : String) : Bool :=
  tagOf n == some t

/-- The tag of the node at a path. -/
def nodeTag (root : Node) (q : Path) : Option String :=
  (nodeAt root q).bind tagOf

/-- The node at a path, defaulting to an empty text node (never hit on paths
produced by the traversal helpers). -/
def nodeAtD (root : Node) (q : Path) : Node :=
  (nodeAt root q).getD (Node.text "")

/-- The ordered structural selector list of `_extract_articles`
(`article_selectors`), one selector string per entry. -/
def articleSelectors : List (List Sel) :=
  [[.tag "article"], [.cls "post"], [.cls "entry"], [.cls "blog-post"],
   [.cls "blog-entry"],
   [.attrContains "class" "article"], [.attrContains "class" "post"],
   [.attrContains "class" "entry"],
   [.cls "card"], [.cls "item"], [.cls "news-item"]]

/-- The title selector of `_extract_article_data`:
`'h1, h2, h3, h4, .title, .entry-title'`. -/
def titleSelGroup : List Sel :=
  [.tag "h1", .tag "h2", .tag "h3", .tag "h4", .cls "title", .cls "entry-title"]

/-- The date selector of `_extract_article_data`:
`'.date, .time, .entry-date, .published, time, [datetime]'`. -/
def dateSelGroup : List Sel :=
  [.cls "date", .cls "time", .cls "entry-date", .cls "published",
   .tag "time", .attrPresent "datetime"]

/-- The content selector of `_extract_article_data`:
`'.content, .entry-content, .description, .summary, p'`. -/
def contentSelGroup : List Sel :=
  [.cls "content", .cls "entry-content", .cls "description", .cls "summary",
   .tag "p"]

/-- The empty dict `article = {}`. -/
def emptyArticle : Article := ⟨none, none, none, none⟩

/-- `_extract_article_data`, title step: first title-selector match gives the
trimmed title, and a link inside the title element gives the url. -/
def edTitleStep (root : Node) (p : Path) : Article :=
  match selectOne root p titleSelGroup with
  | some tp =>
      let withTitle := { emptyArticle with title := some (pyStrip (getText (nodeAtD root tp))) }
      match findDesc root tp (fun n => tagIs n "a") with
      | some lp =>
          match attrOf (nodeAtD root lp) "href" with
          | some href => { withTitle with url := some href }
          | none => withTitle
      | none => withTitle
  | none => emptyArticle

/-- `_extract_article_data`, title fallback: if no title yet, the first link
with a string gives title and url. -/
def edLinkFallbackStep (root : Node) (p : Path) (a : Article) : Article :=
  if a.title.isNone then
    match findDesc root p (fun n => tagIs n "a" && (nodeString n).isSome) with
    | some lp =>
        let withTitle := { a with title := some (pyStrip (getText (nodeAtD root lp))) }
        match attrOf (nodeAtD root lp) "href" with
        | some href => { withTitle with url := some href }
        | none => withTitle
    | none => a
  else a

/-- `_extract_article_data`, date step: first date-selector match, preferring
the `datetime` attribute over element text. -/
def edDateStep (root : Node) (p : Path) (a : Article) : Article :=
  match selectOne root p dateSelGroup with
  | some dp =>
      match attrOf (nodeAtD root dp) "datetime" with
      | some dt => { a with date := some dt }
      | none => { a with date := some (pyStrip (getText (nodeAtD root dp))) }
  | none => a

/-- `_extract_article_data`, content step: first content-selector match gives
the trimmed content; else, if a paragraph descendant exists, all paragraph
texts joined by a newline. -/
def edContentStep (root : Node) (p : Path) (a : Article) : Article :=
  match selectOne root p contentSelGroup with
  | some cp => { a with content := some (pyStrip (getText (nodeAtD root cp))) }
  | none =>
      if (findDesc root p (fun n => tagIs n "p")).isSome then
        let paragraphs := (findAllDesc root p (fun n => tagIs n "p")).map
          (fun q => pyStrip (getText (nodeAtD root q)))
        { a with content := some (String.intercalate "\n" paragraphs) }
      else a

/-- `_extract_article_data`, last step: with a title but no content, the first
paragraph after the title element (anywhere later in the document). -/
def edTitleContentStep (root : Node) (p : Path) (a : Article) : Article :=
  if a.title.isSome && a.content.isNone then
    match selectOne root p titleSelGroup with
    | some tp =>
        match findNext root tp (fun n => tagIs n "p") with
        | some np => { a with content := some (pyStrip (getText (nodeAtD root np))) }
        | none => a
    | none => a
  else a

/-- `_extract_article_data(element)`: the element is the node at path `p`. -/
def extractArticleData (root : Node) (p : Path) : Article :=
  edTitleContentStep root p
    (edContentStep root p
      (edDateStep root p
        (edLinkFallbackStep root p
          (edTitleStep root p))))

/-- `_is_likely_article_title(heading)`: trimmed text length in [10, 200] and
either a nested link or a later paragraph in the document. -/
def isLikelyArticleTitle (root : Node) (p : Path) : Bool :=
  let text := pyStrip (getText (nodeAtD root p))
  if text.length < 10 || text.length > 200 then false
  else if (findDesc root p (fun n => tagIs n "a")).isSome then true
  else if (findNext root p (fun n => tagIs n "p")).isSome then true
  else false

/-- The heading tags at which the sibling walk of
`_extract_article_from_heading` stops. -/
def stopHeadingTags : List String := ["h1", "h2", "h3", "h4"]

/-- The sibling walk of `_extract_article_from_heading`: collect the trimmed
text of `p` siblings, stop at the first sibling whose tag is h1..h4, skip
everything else (text nodes have no tag and are skipped). -/
def siblingParagraphs (root : Node) : List Path → List String
  | [] => []
  | q :: rest =>
      match nodeTag root q with
      | some t =>
          if t = "p" then pyStrip (getText (nodeAtD root q)) :: siblingParagraphs root rest
          else if stopHeadingTags.contains t then []
          else siblingParagraphs root rest
      | none => siblingParagraphs root rest

/-- `_extract_article_from_heading`, title step: the heading's trimmed text,
and a nested link's target as url. -/
def ehTitleStep (root : Node) (p : Path) : Article :=
  let withTitle := { emptyArticle with title := some (pyStrip (getText (nodeAtD root p))) }
  match findDesc root p (fun n => tagIs n "a") with
  | some lp =>
      match attrOf (nodeAtD root lp) "href" with
      | some href => { withTitle with url := some href }
      | none => withTitle
  | none => withTitle

/-- `_extract_article_from_heading`, date step: `find_next` with the name list
`['time', '.date', '.published']` (matched against tag names). -/
def ehDateStep (root : Node) (p : Path) (a : Article) : Article :=
  match findNext root p (fun n =>
      [some "time", some ".date", some ".published"].contains (tagOf n)) with
  | some dp =>
      match attrOf (nodeAtD root dp) "datetime" with
      | some dt => { a with date := some dt }
      | none => { a with date := some (pyStrip (getText (nodeAtD root dp))) }
  | none => a

/-- `_extract_article_from_heading`, content step: the sibling paragraph walk,
joined with newlines when non-empty. -/
def ehContentStep (root : Node) (p : Path) (a : Article) : Article :=
  let paragraphs := siblingParagraphs root (siblingsAfter root p)
  if !paragraphs.isEmpty then
    { a with content := some (String.intercalate "\n" paragraphs) }
  else a

/-- `_extract_article_from_heading(heading)`: the heading is the node at `p`. -/
def extractArticleFromHeading (root : Node) (p : Path) : Article :=
  ehContentStep root p (ehDateStep root p (ehTitleStep root p))

/-- The guard `if article and article.get('title')`: the dict is non-empty and
the title value is a non-empty string. -/
def articleKeep (a : Article) : Bool :=
  (a.title.isSome || a.url.isSome || a.date.isSome || a.content.isSome)
    && !(a.title.getD "").isEmpty

/-- The structural selector loop of `_extract_articles`: try each selector in
order; on a selector with matches, append each kept article; stop as soon as
the accumulated list is non-empty. -/
def structuralLoop (root : Node) : List (List Sel) → List Article → List Article
  | [], articles => articles
  | g :: rest, articles =>
      let elems := select root [] g
      if elems.isEmpty then structuralLoop root rest articles
      else
        let articles2 := elems.foldl (fun acc ep =>
          let a := extractArticleData root ep
          if articleKeep a then acc ++ [a] else acc) articles
        if articles2.isEmpty then structuralLoop root rest articles2 else articles2

/-- The heading fallback loop of `_extract_articles`: for each h1/h2/h3 in
document order, keep the heading-based article when the heading passes the
likely-title test and the article has a title. -/
def headingLoop (root : Node) : List Path → List Article → List Article
  | [], articles => articles
  | hp :: rest, articles =>
      if isLikelyArticleTitle root hp then
        let a := extractArticleFromHeading root hp
        if articleKeep a then headingLoop root rest (articles ++ [a])
        else headingLoop root rest articles
      else headingLoop root rest articles

/-- All h1/h2/h3 paths of the document, in document order
(`soup.find_all(['h1', 'h2', 'h3'])`). -/
def headingPaths (root : Node) : List Path :=
  findAllDesc root [] (fun n =>
    [some "h1", some "h2", some "h3"].contains (tagOf n))

/-- `_extract_articles(html_content)`: the structural pass, then the heading
fallback when the structural pass produced nothing. -/
def extractArticles (root : Node) : List Article :=
  let articles := structuralLoop root articleSelectors []
  if articles.isEmpty then headingLoop root (headingPaths root) []
  else articles

/-- The identity key of an article: `art.get('url', art.get('title', ''))`. -/
def artKey (a : Article) : String :=
  a.url.getD (a.title.getD "")

/-- The identity key of a changed-article record (it retains the current
article's title and url, so this is the current article's key). -/
def chKey (c : ChangedArticle) : String :=
  c.url.getD (c.title.getD "")

/-- Insertion into a Python dict modelled as an insertion-ordered association
list: overwrite in place when the key exists, else append. -/
def dictInsert (m : List (String × Article)) (k : String) (v : Article) :
    List (String × Article) :=
  match m with
  | [] => [(k, v)]
  | kv :: rest => if kv.1 = k then (k, v) :: rest else kv :: dictInsert rest k v

/-- Lookup in the association-list dict. -/
def alistLookup (m : List (String × Article)) (k : String) : Option Article :=
  match m with
  | [] => none
  | kv :: rest => if kv.1 = k then some kv.2 else alistLookup rest k

/-- The dict comprehension `{key(art): art for art in articles}`: keys in
first-insertion order, values last-write-wins. -/
def buildMap (articles : List Article) : List (String × Article) :=
  articles.foldl (fun d a => dictInsert d (artKey a) a) []

/-- The first loop of `_compare_versions`: over the current map's items, a key
absent from the previous map yields a new article; a key present with
differing content yields a changed-article record. -/
def classifyCurr (pm : List (String × Article)) :
    List (String × Article) → List Article × List ChangedArticle
  | [] => ([], [])
  | (k, ca) :: rest =>
      let nc := classifyCurr pm rest
      match alistLookup pm k with
      | none => (ca :: nc.1, nc.2)
      | some pa =>
          if ca.content ≠ pa.content then
            (nc.1, ⟨ca.title, ca.url, pa.content, ca.content⟩ :: nc.2)
          else nc

/-- The second loop of `_compare_versions`: keys of the previous map absent
from the current map yield removed articles. -/
def removedLoop (cm : List (String × Article)) :
    List (String × Article) → List Article
  | [] => []
  | (k, pa) :: rest =>
      if (alistLookup cm k).isNone then pa :: removedLoop cm rest
      else removedLoop cm rest

/-- The comparator on two article lists: build both key maps, then classify
into (new, changed, removed). -/
def compareArticleLists (prev curr : List Article) :
    List Article × List ChangedArticle × List Article :=
  let pm := buildMap prev
  let cm := buildMap curr
  let nc := classifyCurr pm cm
  (nc.1, nc.2, removedLoop cm pm)

/-- `_compare_versions`: extract both article lists, compare, and assemble the
diff result; `has_changes` is the disjunction of non-emptiness of the three
lists. -/
def compareVersions (prevDoc currDoc : Node) (url domain previousDate currentDateStr : String) :
    DiffResult :=
  let r := compareArticleLists (extractArticles prevDoc) (extractArticles currDoc)
  { url := url
    domain := domain
    current_date := currentDateStr
    previous_date := some previousDate
    has_changes := decide (0 < r.1.length) || decide (0 < r.2.1.length)
      || decide (0 < r.2.2.length)
    new_articles := r.1
    changed_articles := r.2.1
    removed_articles := r.2.2 }

/-- `generate_diff`, with the two I/O collaborators made explicit:
`currentExists` is whether the current snapshot file exists, `previous` is
what `get_previous_content` returned (`(None, None)` or content and date).
The first component is the returned value (`None` when the current snapshot is
missing), the second the list of results handed to `_save_diff_result`. -/
def generateDiff (currentExists : Bool) (currentDoc : Node)
    (previous : Option (Node × String)) (url domain currentDateStr : String) :
    Option DiffResult × List DiffResult :=
  if !currentExists then (none, [])
  else
    let diffResult :=
      match previous with
      | none =>
          let articles := extractArticles currentDoc
          { url := url
            domain := domain
            current_date := currentDateStr
            previous_date := none
            has_changes := decide (0 < articles.length)
            new_articles := articles
            changed_articles := []
            removed_articles := [] }
      | some pd => compareVersions pd.1 currentDoc url domain pd.2 currentDateStr
    (some diffResult, [diffResult])

/-- Number of entries of an article list carrying identity key `k`. -/
def keyCount (l : List Article) (k : String) : Nat :=
  (l.filter (fun a => artKey a == k)).length

/-- Number of entries of a changed-article list carrying identity key `k`. -/
def chCount (l : List ChangedArticle) (k : String) : Nat :=
  (l.filter (fun c => chKey c == k)).length

/-- The per-selector article harvest of one structural-loop iteration: one
kept article per matching element of the document, in document order. -/
def patternArticles (root : Node) (g : List Sel) : List Article :=
  (select root [] g).foldl (fun acc ep =>
    let a := extractArticleData root ep
    if articleKeep a then acc ++ [a] else acc) []

/-- The first non-empty list of a list of lists. -/
def firstNonempty : List (List Article) → Option (List Article)
  | [] => none
  | l :: ls => if l.isEmpty then firstNonempty ls else some l

/-- Whether the node at `q` is a heading of the kinds the sibling walk of
`_extract_article_from_heading` stops at. -/
def isStopHeading (root : Node) (q : Path) : Bool :=
  match nodeTag root q with
  | some t => stopHeadingTags.contains t
  | none => false

/-- Declarative form of the sibling walk: take siblings up to the first
h1..h4 heading, keep the paragraphs, take their trimmed texts. -/
def siblingParagraphTexts (root : Node) (sibs : List Path) : List String :=
  ((sibs.takeWhile (fun q => !isStopHeading root q)).filter
    (fun q => nodeTag root q == some "p")).map
    (fun q => pyStrip (getText (nodeAtD root q)))

/-- Content extraction as claim C5 words it: a content/description/summary
class-selector match takes priority, only lacking that the first paragraph is
used, and when no single content element matches but paragraphs exist, all
paragraph texts are joined with a newline separator. -/
def contentSpecC5 (root : Node) (p : Path) : Option String :=
  match selectOne root p [Sel.cls "content", Sel.cls "entry-content",
      Sel.cls "description", Sel.cls "summary"] with
  | some cp => some (pyStrip (getText (nodeAtD root cp)))
  | none =>
      match selectOne root p [Sel.tag "p"] with
      | some pp => some (pyStrip (getText (nodeAtD root pp)))
      | none =>
          if (findDesc root p (fun n => tagIs n "p")).isSome then
            some (String.intercalate "\n"
              ((findAllDesc root p (fun n => tagIs n "p")).map
                (fun q => pyStrip (getText (nodeAtD root q)))))
          else none

/-- The structural level of a heading tag: h1 is the highest level. -/
def headingLevel : String → Option Nat
  | "h1" => some 1
  | "h2" => some 2
  | "h3" => some 3
  | "h4" => some 4
  | _ => none

/-- The sibling walk as claim C6 words it: collect paragraph texts, stopping
only at a following sibling heading of equal-or-higher structural level than
the accepted heading (level number at most `lvl`). -/
def siblingParagraphsSpecC6 (root : Node) (lvl : Nat) : List Path → List String
  | [] => []
  | q :: rest =>
      match nodeTag root q with
      | some t =>
          if t = "p" then
            pyStrip (getText (nodeAtD root q)) :: siblingParagraphsSpecC6 root lvl rest
          else
            match headingLevel t with
            | some l => if l ≤ lvl then [] else siblingParagraphsSpecC6 root lvl rest
            | none => siblingParagraphsSpecC6 root lvl rest
      | none => siblingParagraphsSpecC6 root lvl rest

/-- Heading-based content as claim C6 words it. -/
def contentSpecC6 (root : Node) (p : Path) : Option String :=
  let lvl := ((nodeTag root p).bind headingLevel).getD 4
  let paras := siblingParagraphsSpecC6 root lvl (siblingsAfter root p)
  if paras.isEmpty then none else some (String.intercalate "\n" paras)

/-- A sample document with one structural `article` container. -/
def docStructured : Node :=
  .elem "body" []
    [.elem "article" [] [.elem "h2" [] [.text "Hello World Title"]]]

/-- The single article extracted from `docStructured`. -/
def articleStructured : Article := ⟨some "Hello World Title", none, none, none⟩

/-- A sample document with no structural container and one accepted heading. -/
def docHeadingOnly : Node :=
  .elem "body" []
    [.elem "h2" [] [.text "0123456789"], .elem "p" [] [.text "Para one."]]

/-- The single article extracted from `docHeadingOnly`. -/
def articleHeading : Article := ⟨some "0123456789", none, none, some "Para one."⟩

/-- A container whose first content-group match in document order is a
paragraph, while a description-class element follows it. -/
def docC5 : Node :=
  .elem "div" []
    [.elem "p" [] [.text "para text here"],
     .elem "div" [("class", "description")] [.text "desc text"]]

/-- A document whose accepted h3 heading is followed by a paragraph, an h4
heading of lower structural level, and another paragraph. -/
def docC6 : Node :=
  .elem "body" []
    [.elem "h3" [] [.text "A long enough article title"],
     .elem "p" [] [.text "First para."],
     .elem "h4" [] [.text "Sub"],
     .elem "p" [] [.text "Second para."]]

/-- The diff result of the no-previous-snapshot path on `docStructured`. -/
def sampleDiffNoPrev : DiffResult :=
  { url := "https://x.test/blog"
    domain := "x.test"
    current_date := "2024-01-02"
    previous_date := none
    has_changes := decide (0 < (extractArticles docStructured).length)
    new_articles := extractArticles docStructured
    changed_articles := []
    removed_articles := [] }

/-! ### Dict-model lemmas -/

theorem alistLookup_dictInsert_self (m : List (String × Article)) (k : String)
    (v : Article) : alistLookup (dictInsert m k v) k = some v := by
  induction m with
  | nil => simp [dictInsert, alistLookup]
  | cons kv rest ih =>
      by_cases h : kv.1 = k
      · simp [dictInsert, alistLookup, h]
      · simp [dictInsert, alistLookup, h, ih]

theorem alistLookup_dictInsert_ne (m : List (String × Article)) (k k' : String)
    (v : Article) (h : k' ≠ k) :
    alistLookup (dictInsert m k' v) k = alistLookup m k := by
  induction m with
  | nil => simp [dictInsert, alistLookup, h]
  | cons kv rest ih =>
      simp only [dictInsert]
      by_cases hkv : kv.1 = k'
      · rw [if_pos hkv]
        have h2 : ¬(kv.1 = k) := by rw [hkv]; exact h
        simp only [alistLookup]
        rw [if_neg h, if_neg h2]
      · rw [if_neg hkv]
        simp only [alistLookup]
        by_cases hk : kv.1 = k
        · rw [if_pos hk, if_pos hk]
        · rw [if_neg hk, if_neg hk]
          exact ih

theorem buildMap_append (l : List Article) (a : Article) :
    buildMap (l ++ [a]) = dictInsert (buildMap l) (artKey a) a := by
  simp [buildMap, List.foldl_append]

theorem mem_dictInsert (m : List (String × Article)) (k : String) (v : Article)
    (kv : String × Article) (h : kv ∈ dictInsert m k v) : kv = (k, v) ∨ kv ∈ m := by
  induction m with
  | nil => simpa [dictInsert] using h
  | cons kv0 rest ih =>
      by_cases hk : kv0.1 = k
      · simp only [dictInsert, if_pos hk, List.mem_cons] at h
        rcases h with h | h
        · exact Or.inl h
        · exact Or.inr (List.mem_cons_of_mem _ h)
      · simp only [dictInsert, if_neg hk, List.mem_cons] at h
        rcases h with h | h
        · exact Or.inr (h ▸ List.mem_cons_self _ _)
        · rcases ih h with h' | h'
          · exact Or.inl h'
          · exact Or.inr (List.mem_cons_of_mem _ h')

theorem keys_dictInsert (m : List (String × Article)) (k : String) (v : Article) :
    (dictInsert m k v).map Prod.fst =
      if k ∈ m.map Prod.fst then m.map Prod.fst else m.map Prod.fst ++ [k] := by
  induction m with
  | nil => simp [dictInsert]
  | cons kv rest ih =>
      by_cases hk : kv.1 = k
      · simp [dictInsert, hk]
      · have hne : ¬k = kv.1 := fun h => hk h.symm
        simp only [dictInsert, if_neg hk, List.map_cons, ih]
        by_cases hm : k ∈ rest.map Prod.fst
        · rw [if_pos hm, if_pos (List.mem_cons_of_mem _ hm)]
        · rw [if_neg hm, if_neg (by simp [hm, hne])]
          simp

theorem nodup_keys_dictInsert (m : List (String × Article)) (k : String)
    (v : Article) (h : (m.map Prod.fst).Nodup) :
    ((dictInsert m k v).map Prod.fst).Nodup := by
  rw [keys_dictInsert]
  split
  · exact h
  · next hk => simp [List.nodup_append, h, hk]

theorem buildMap_inv (l : List Article) :
    (∀ kv ∈ buildMap l, artKey kv.2 = kv.1) ∧ ((buildMap l).map Prod.fst).Nodup := by
  induction l using List.reverseRecOn with
  | nil => simp [buildMap]
  | append_singleton l a ih =>
      rw [buildMap_append]
      refine ⟨fun kv hkv => ?_, nodup_keys_dictInsert _ _ _ ih.2⟩
      rcases mem_dictInsert _ _ _ _ hkv with h | h
      · rw [h]
      · exact ih.1 kv h

theorem alistLookup_eq_none_iff (m : List (String × Article)) (k : String) :
    alistLookup m k = none ↔ k ∉ m.map Prod.fst := by
  induction m with
  | nil => simp [alistLookup]
  | cons kv rest ih =>
      by_cases hk : kv.1 = k
      · simp [alistLookup, hk]
      · have hne : ¬k = kv.1 := fun h => hk h.symm
        simp [alistLookup, hk, ih, hne]

/-- The claim C8: for every article list, the key-to-article mapping built by
the comparator maps each identity key to the last article in list order
carrying that key (earlier duplicates are overwritten). -/
theorem C8_duplicate_key_last_wins (arts : List Article) (k : String) :
    alistLookup (buildMap arts) k = arts.reverse.find? (fun a => artKey a == k) := by
  induction arts using List.reverseRecOn with
  | nil => simp [buildMap, alistLookup]
  | append_singleton l a ih =>
      rw [buildMap_append, List.reverse_append]
      by_cases h : artKey a = k
      · subst h
        rw [alistLookup_dictInsert_self]
        simp
      · rw [alistLookup_dictInsert_ne _ _ _ _ h, ih]
        have hb : (artKey a == k) = false := beq_eq_false_iff_ne.mpr h
        simp [List.find?, hb]

/-! ### Comparator classification lemmas -/

theorem keyCount_cons (a : Article) (l : List Article) (k : String) :
    keyCount (a :: l) k = (if artKey a = k then 1 else 0) + keyCount l k := by
  simp only [keyCount, List.filter_cons, beq_iff_eq]
  by_cases h : artKey a = k
  · simp [h, Nat.add_comm]
  · simp [h]

theorem chCount_cons (c : ChangedArticle) (l : List ChangedArticle) (k : String) :
    chCount (c :: l) k = (if chKey c = k then 1 else 0) + chCount l k := by
  simp only [chCount, List.filter_cons, beq_iff_eq]
  by_cases h : chKey c = k
  · simp [h, Nat.add_comm]
  · simp [h]

theorem classifyCurr_cons_none_fst (pm rest : List (String × Article))
    (k' : String) (ca : Article) (hpm : alistLookup pm k' = none) :
    (classifyCurr pm ((k', ca) :: rest)).1 = ca :: (classifyCurr pm rest).1 := by
  simp only [classifyCurr, hpm]

theorem classifyCurr_cons_none_snd (pm rest : List (String × Article))
    (k' : String) (ca : Article) (hpm : alistLookup pm k' = none) :
    (classifyCurr pm ((k', ca) :: rest)).2 = (classifyCurr pm rest).2 := by
  simp only [classifyCurr, hpm]

theorem classifyCurr_cons_some_fst (pm rest : List (String × Article))
    (k' : String) (ca pa : Article) (hpm : alistLookup pm k' = some pa) :
    (classifyCurr pm ((k', ca) :: rest)).1 = (classifyCurr pm rest).1 := by
  simp only [classifyCurr, hpm]
  split <;> rfl

theorem classifyCurr_cons_some_snd (pm rest : List (String × Article))
    (k' : String) (ca pa : Article) (hpm : alistLookup pm k' = some pa) :
    (classifyCurr pm ((k', ca) :: rest)).2 =
      if ca.content ≠ pa.content then
        (⟨ca.title, ca.url, pa.content, ca.content⟩ : ChangedArticle)
          :: (classifyCurr pm rest).2
      else (classifyCurr pm rest).2 := by
  simp only [classifyCurr, hpm]
  split <;> rfl

theorem classifyCurr_new_count (pm : List (String × Article)) (k : String) :
    ∀ cm : List (String × Article), (∀ kv ∈ cm, artKey kv.2 = kv.1) →
      (cm.map Prod.fst).Nodup →
      keyCount (classifyCurr pm cm).1 k =
        if (alistLookup cm k).isSome ∧ alistLookup pm k = none then 1 else 0 := by
  intro cm
  induction cm with
  | nil => intro _ _; simp [classifyCurr, keyCount, alistLookup]
  | cons kv rest ih =>
      intro hk hn
      obtain ⟨k', ca⟩ := kv
      have hkey : artKey ca = k' := hk (k', ca) (List.mem_cons_self _ _)
      have hkrest : ∀ kv ∈ rest, artKey kv.2 = kv.1 :=
        fun kv h => hk kv (List.mem_cons_of_mem _ h)
      rw [List.map_cons] at hn
      have hn' := List.nodup_cons.mp hn
      have ihr := ih hkrest hn'.2
      have hnone : alistLookup rest k' = none :=
        (alistLookup_eq_none_iff rest k').mpr hn'.1
      cases hpm : alistLookup pm k' with
      | none =>
          rw [classifyCurr_cons_none_fst pm rest k' ca hpm, keyCount_cons, hkey]
          by_cases hkk : k' = k
          · subst hkk
            have c1 : ¬((alistLookup rest k').isSome ∧ alistLookup pm k' = none) := by
              rintro ⟨hs, -⟩
              rw [hnone] at hs
              simp at hs
            have hcons : alistLookup ((k', ca) :: rest) k' = some ca := by
              simp [alistLookup]
            rw [ihr, if_neg c1, if_pos rfl, hcons, hpm]
            simp
          · have hlk : alistLookup ((k', ca) :: rest) k = alistLookup rest k := by
              simp [alistLookup, hkk]
            rw [if_neg hkk, hlk, ihr]
            simp
      | some pa =>
          rw [classifyCurr_cons_some_fst pm rest k' ca pa hpm]
          have key : keyCount (classifyCurr pm rest).1 k =
              if (alistLookup ((k', ca) :: rest) k).isSome ∧ alistLookup pm k = none
              then 1 else 0 := by
            by_cases hkk : k' = k
            · subst hkk
              have c1 : ¬((alistLookup rest k').isSome ∧ alistLookup pm k' = none) := by
                rintro ⟨hs, -⟩
                rw [hnone] at hs
                simp at hs
              have c2 : ¬((alistLookup ((k', ca) :: rest) k').isSome ∧
                  alistLookup pm k' = none) := by
                rintro ⟨-, hpm'⟩
                rw [hpm] at hpm'
                exact Option.noConfusion hpm'
              rw [ihr, if_neg c1, if_neg c2]
            · have hlk : alistLookup ((k', ca) :: rest) k = alistLookup rest k := by
                simp [alistLookup, hkk]
              rw [ihr, hlk]
          exact key

theorem chKey_mk (ca pa : Article) :
    chKey ⟨ca.title, ca.url, pa.content, ca.content⟩ = artKey ca := rfl

theorem classifyCurr_changed_count (pm : List (String × Article)) (k : String) :
    ∀ cm : List (String × Article), (∀ kv ∈ cm, artKey kv.2 = kv.1) →
      (cm.map Prod.fst).Nodup →
      chCount (classifyCurr pm cm).2 k =
        match alistLookup cm k, alistLookup pm k with
        | some ca, some pa => if ca.content ≠ pa.content then 1 else 0
        | _, _ => 0 := by
  intro cm
  induction cm with
  | nil => intro _ _; simp [classifyCurr, chCount, alistLookup]
  | cons kv rest ih =>
      intro hk hn
      obtain ⟨k', ca⟩ := kv
      have hkey : artKey ca = k' := hk (k', ca) (List.mem_cons_self _ _)
      have hkrest : ∀ kv ∈ rest, artKey kv.2 = kv.1 :=
        fun kv h => hk kv (List.mem_cons_of_mem _ h)
      rw [List.map_cons] at hn
      have hn' := List.nodup_cons.mp hn
      have ihr := ih hkrest hn'.2
      have hnone : alistLookup rest k' = none :=
        (alistLookup_eq_none_iff rest k').mpr hn'.1
      cases hpm : alistLookup pm k' with
      | none =>
          rw [classifyCurr_cons_none_snd pm rest k' ca hpm]
          by_cases hkk : k' = k
          · subst hkk
            have hcons : alistLookup ((k', ca) :: rest) k' = some ca := by
              simp [alistLookup]
            rw [ihr, hnone, hcons, hpm]
          · have hlk : alistLookup ((k', ca) :: rest) k = alistLookup rest k := by
              simp [alistLookup, hkk]
            rw [ihr, hlk]
      | some pa =>
          rw [classifyCurr_cons_some_snd pm rest k' ca pa hpm]
          by_cases hkk : k' = k
          · subst hkk
            have hcons : alistLookup ((k', ca) :: rest) k' = some ca := by
              simp [alistLookup]
            have hrest0 : chCount (classifyCurr pm rest).2 k' = 0 := by
              rw [ihr, hnone]
            rw [hcons, hpm]
            by_cases hc : ca.content ≠ pa.content
            · rw [if_pos hc, chCount_cons, chKey_mk, hkey, if_pos rfl, hrest0]
              simp [hc]
            · rw [if_neg hc, hrest0]
              simp [hc]
          · have hlk : alistLookup ((k', ca) :: rest) k = alistLookup rest k := by
              simp [alistLookup, hkk]
            have hck : ¬(chKey (⟨ca.title, ca.url, pa.content, ca.content⟩ :
                ChangedArticle) = k) := by
              rw [chKey_mk, hkey]
              exact hkk
            by_cases hc : ca.content ≠ pa.content
            · rw [if_pos hc, chCount_cons, if_neg hck, ihr, hlk]
              exact Nat.zero_add _
            · rw [if_neg hc, ihr, hlk]

theorem removedLoop_count (cm : List (String × Article)) (k : String) :
    ∀ pm : List (String × Article), (∀ kv ∈ pm, artKey kv.2 = kv.1) →
      (pm.map Prod.fst).Nodup →
      keyCount (removedLoop cm pm) k =
        if (alistLookup pm k).isSome ∧ alistLookup cm k = none then 1 else 0 := by
  intro pm
  induction pm with
  | nil => intro _ _; simp [removedLoop, keyCount, alistLookup]
  | cons kv rest ih =>
      intro hk hn
      obtain ⟨k', pa⟩ := kv
      have hkey : artKey pa = k' := hk (k', pa) (List.mem_cons_self _ _)
      have hkrest : ∀ kv ∈ rest, artKey kv.2 = kv.1 :=
        fun kv h => hk kv (List.mem_cons_of_mem _ h)
      rw [List.map_cons] at hn
      have hn' := List.nodup_cons.mp hn
      have ihr := ih hkrest hn'.2
      have hnone : alistLookup rest k' = none :=
        (alistLookup_eq_none_iff rest k').mpr hn'.1
      simp only [removedLoop]
      by_cases hcm : (alistLookup cm k').isNone
      · rw [if_pos hcm, keyCount_cons, hkey]
        by_cases hkk : k' = k
        · subst hkk
          have c1 : ¬((alistLookup rest k').isSome ∧ alistLookup cm k' = none) := by
            rintro ⟨hs, -⟩
            rw [hnone] at hs
            simp at hs
          have hcons : alistLookup ((k', pa) :: rest) k' = some pa := by
            simp [alistLookup]
          rw [ihr, if_neg c1, if_pos rfl, hcons]
          rw [Option.isNone_iff_eq_none] at hcm
          rw [hcm]
          simp
        · have hlk : alistLookup ((k', pa) :: rest) k = alistLookup rest k := by
            simp [alistLookup, hkk]
          rw [if_neg hkk, hlk, ihr]
          simp
      · rw [if_neg hcm]
        by_cases hkk : k' = k
        · subst hkk
          have c1 : ¬((alistLookup rest k').isSome ∧ alistLookup cm k' = none) := by
            rintro ⟨hs, -⟩
            rw [hnone] at hs
            simp at hs
          have c2 : ¬((alistLookup ((k', pa) :: rest) k').isSome ∧
              alistLookup cm k' = none) := by
            rintro ⟨-, hcm'⟩
            rw [hcm'] at hcm
            exact hcm rfl
          rw [ihr, if_neg c1, if_neg c2]
        · have hlk : alistLookup ((k', pa) :: rest) k = alistLookup rest k := by
            simp [alistLookup, hkk]
          rw [ihr, hlk]

theorem classifyCurr_changed_mem (pm : List (String × Article)) (k : String) :
    ∀ cm : List (String × Article), (∀ kv ∈ cm, artKey kv.2 = kv.1) →
      ∀ ca pa : Article, alistLookup cm k = some ca →
        alistLookup pm k = some pa → ca.content ≠ pa.content →
        (⟨ca.title, ca.url, pa.content, ca.content⟩ : ChangedArticle) ∈
          (classifyCurr pm cm).2 := by
  intro cm
  induction cm with
  | nil => intro _ ca pa hca _ _; exact absurd hca (by simp [alistLookup])
  | cons kv rest ih =>
      intro hk ca pa hca hpa hc
      obtain ⟨k', ca'⟩ := kv
      have hkrest : ∀ kv ∈ rest, artKey kv.2 = kv.1 :=
        fun kv h => hk kv (List.mem_cons_of_mem _ h)
      by_cases hkk : k' = k
      · subst hkk
        have hca' : ca' = ca := by
          have : alistLookup ((k', ca') :: rest) k' = some ca' := by
            simp [alistLookup]
          rw [this] at hca
          exact Option.some.inj hca
        subst hca'
        rw [classifyCurr_cons_some_snd pm rest k' ca' pa hpa, if_pos hc]
        exact List.mem_cons_self _ _
      · have hlk : alistLookup ((k', ca') :: rest) k = alistLookup rest k := by
          simp [alistLookup, hkk]
        rw [hlk] at hca
        have hmem := ih hkrest ca pa hca hpa hc
        cases hpm' : alistLookup pm k' with
        | none =>
            rw [classifyCurr_cons_none_snd pm rest k' ca' hpm']
            exact hmem
        | some pa' =>
            rw [classifyCurr_cons_some_snd pm rest k' ca' pa' hpm']
            split
            · exact List.mem_cons_of_mem _ hmem
            · exact hmem

/-- C1: for every pair of article lists, the comparator classifies each
identity key exactly as claimed: a key in the current mapping but not the
previous one yields exactly one entry in new_articles; a key in both mappings
with differing content yields exactly one ChangedArticle, and the record
retaining both content versions is in the list; identical content yields no
entry; a key
only in the previous mapping yields exactly one entry in removed_articles;
and the three per-key counts sum to at most one, so no identity key appears
in more than one output list. -/
theorem C1_comparator_classification (prev curr : List Article) (k : String) :
    (((alistLookup (buildMap curr) k).isSome ∧ alistLookup (buildMap prev) k = none) →
        keyCount (compareArticleLists prev curr).1 k = 1 ∧
        chCount (compareArticleLists prev curr).2.1 k = 0 ∧
        keyCount (compareArticleLists prev curr).2.2 k = 0) ∧
    (∀ ca pa : Article, alistLookup (buildMap curr) k = some ca →
        alistLookup (buildMap prev) k = some pa →
        ((ca.content ≠ pa.content →
            keyCount (compareArticleLists prev curr).1 k = 0 ∧
            chCount (compareArticleLists prev curr).2.1 k = 1 ∧
            keyCount (compareArticleLists prev curr).2.2 k = 0 ∧
            (⟨ca.title, ca.url, pa.content, ca.content⟩ : ChangedArticle) ∈
              (compareArticleLists prev curr).2.1) ∧
         (ca.content = pa.content →
            keyCount (compareArticleLists prev curr).1 k = 0 ∧
            chCount (compareArticleLists prev curr).2.1 k = 0 ∧
            keyCount (compareArticleLists prev curr).2.2 k = 0))) ∧
    (((alistLookup (buildMap prev) k).isSome ∧ alistLookup (buildMap curr) k = none) →
        keyCount (compareArticleLists prev curr).1 k = 0 ∧
        chCount (compareArticleLists prev curr).2.1 k = 0 ∧
        keyCount (compareArticleLists prev curr).2.2 k = 1) ∧
    keyCount (compareArticleLists prev curr).1 k +
      chCount (compareArticleLists prev curr).2.1 k +
      keyCount (compareArticleLists prev curr).2.2 k ≤ 1 := by
  have hcurr := buildMap_inv curr
  have hprev := buildMap_inv prev
  have hnew := classifyCurr_new_count (buildMap prev) k (buildMap curr) hcurr.1 hcurr.2
  have hch := classifyCurr_changed_count (buildMap prev) k (buildMap curr) hcurr.1 hcurr.2
  have hrem := removedLoop_count (buildMap curr) k (buildMap prev) hprev.1 hprev.2
  simp only [compareArticleLists]
  refine ⟨?_, ?_, ?_, ?_⟩
  · rintro ⟨hs, hp⟩
    obtain ⟨ca, hca⟩ := Option.isSome_iff_exists.mp hs
    refine ⟨?_, ?_, ?_⟩
    · rw [hnew, if_pos ⟨hs, hp⟩]
    · rw [hch, hca, hp]
    · rw [hrem, if_neg]
      rintro ⟨hs', -⟩
      rw [hp] at hs'
      simp at hs'
  · intro ca pa hca hpa
    have hnew0 : keyCount (classifyCurr (buildMap prev) (buildMap curr)).1 k = 0 := by
      rw [hnew, if_neg]
      rintro ⟨-, hp⟩
      rw [hpa] at hp
      exact Option.noConfusion hp
    have hrem0 : keyCount (removedLoop (buildMap curr) (buildMap prev)) k = 0 := by
      rw [hrem, if_neg]
      rintro ⟨-, hc'⟩
      rw [hca] at hc'
      exact Option.noConfusion hc'
    constructor
    · intro hc
      refine ⟨hnew0, ?_, hrem0, ?_⟩
      · rw [hch, hca, hpa]
        simp [hc]
      · exact classifyCurr_changed_mem (buildMap prev) k (buildMap curr)
          hcurr.1 ca pa hca hpa hc
    · intro hc
      refine ⟨hnew0, ?_, hrem0⟩
      rw [hch, hca, hpa]
      simp [hc]
  · rintro ⟨hs, hc⟩
    obtain ⟨pa, hpa⟩ := Option.isSome_iff_exists.mp hs
    refine ⟨?_, ?_, ?_⟩
    · rw [hnew, if_neg]
      rintro ⟨hs', -⟩
      rw [hc] at hs'
      simp at hs'
    · rw [hch, hc]
    · rw [hrem, if_pos ⟨hs, hc⟩]
  · rw [hnew, hch, hrem]
    cases hcm : alistLookup (buildMap curr) k with
    | none =>
        cases hpm : alistLookup (buildMap prev) k with
        | none => simp
        | some pa => simp
    | some ca =>
        cases hpm : alistLookup (buildMap prev) k with
        | none => simp
        | some pa =>
            by_cases hcc : ca.content ≠ pa.content <;> simp [hcc]

/-- C3: for every diff result produced, on both the compare path and the
no-previous-snapshot path, the has_changes field is true exactly when at
least one of new_articles, changed_articles, removed_articles is non-empty. -/
theorem C3_has_changes_iff_nonempty (currentExists : Bool) (currentDoc : Node)
    (previous : Option (Node × String)) (url domain currentDateStr : String)
    (r : DiffResult)
    (h : (generateDiff currentExists currentDoc previous url domain
      currentDateStr).1 = some r) :
    r.has_changes = true ↔
      (r.new_articles ≠ [] ∨ r.changed_articles ≠ [] ∨ r.removed_articles ≠ []) := by
  cases currentExists with
  | false =>
      have h' : (none : Option DiffResult) = some r := h
      exact Option.noConfusion h'
  | true =>
      cases previous with
      | none =>
          have h' : some
              { url := url, domain := domain, current_date := currentDateStr,
                previous_date := none,
                has_changes := decide (0 < (extractArticles currentDoc).length),
                new_articles := extractArticles currentDoc,
                changed_articles := [], removed_articles := [],
                : DiffResult } = some r := h
          obtain rfl : _ = r := Option.some.inj h'
          simp [List.length_pos]
      | some pd =>
          have h' : some (compareVersions pd.1 currentDoc url domain pd.2
            currentDateStr) = some r := h
          obtain rfl : _ = r := Option.some.inj h'
          simp only [compareVersions]
          simp [List.length_pos, or_assoc]

/-- Witness for C3 at a concrete run of the no-previous-snapshot path. -/
theorem C3_witness :
    sampleDiffNoPrev.has_changes = true ↔
      (sampleDiffNoPrev.new_articles ≠ [] ∨ sampleDiffNoPrev.changed_articles ≠ [] ∨
        sampleDiffNoPrev.removed_articles ≠ []) :=
  C3_has_changes_iff_nonempty true docStructured none "https://x.test/blog"
    "x.test" "2024-01-02" sampleDiffNoPrev rfl

/-- C4: with a current snapshot and no previous snapshot, generate_diff
bypasses the comparator: the result's new_articles are exactly the articles
extracted from the current markup, changed and removed are empty,
previous_date is none, and has_changes is true exactly when the extracted
list is non-empty. -/
theorem C4_no_previous_all_new (currentDoc : Node)
    (url domain currentDateStr : String) :
    (generateDiff true currentDoc none url domain currentDateStr).1 =
      some { url := url, domain := domain, current_date := currentDateStr,
             previous_date := none,
             has_changes := decide (0 < (extractArticles currentDoc).length),
             new_articles := extractArticles currentDoc,
             changed_articles := [], removed_articles := [] } ∧
    (decide (0 < (extractArticles currentDoc).length) = true ↔
      extractArticles currentDoc ≠ []) := by
  constructor
  · rfl
  · simp [List.length_pos]

/-- C9: when the current snapshot does not exist, generate_diff returns no
result and persists nothing; and when it exists, a result is always returned
and persisted, so the missing current snapshot is the only signalled
condition. -/
theorem C9_missing_current_snapshot (currentDoc : Node)
    (previous : Option (Node × String)) (url domain currentDateStr : String) :
    generateDiff false currentDoc previous url domain currentDateStr =
      (none, []) ∧
    ∀ previous2 : Option (Node × String), ∃ r : DiffResult,
      generateDiff true currentDoc previous2 url domain currentDateStr =
        (some r, [r]) := by
  refine ⟨rfl, ?_⟩
  intro p2
  cases p2 with
  | none => exact ⟨_, rfl⟩
  | some pd => exact ⟨_, rfl⟩

/-! ### Extraction lemmas -/

theorem mem_keepFoldl (root : Node) :
    ∀ (elems : List Path) (acc : List Article) (a : Article),
      a ∈ elems.foldl (fun acc ep =>
        let a' := extractArticleData root ep
        if articleKeep a' then acc ++ [a'] else acc) acc →
      a ∈ acc ∨ articleKeep a = true := by
  intro elems
  induction elems with
  | nil => intro acc a h; exact Or.inl h
  | cons e es ih =>
      intro acc a h
      rw [List.foldl_cons] at h
      rcases ih _ a h with h' | h'
      · by_cases hk : articleKeep (extractArticleData root e) = true
        · simp only [hk, if_true] at h'
          rcases List.mem_append.mp h' with h'' | h''
          · exact Or.inl h''
          · right
            rw [List.mem_singleton.mp h'']
            exact hk
        · simp only [hk, if_false] at h'
          exact Or.inl h'
      · exact Or.inr h'

theorem mem_structuralLoop (root : Node) :
    ∀ (sels : List (List Sel)) (acc : List Article) (a : Article),
      a ∈ structuralLoop root sels acc → a ∈ acc ∨ articleKeep a = true := by
  intro sels
  induction sels with
  | nil => intro acc a h; exact Or.inl h
  | cons g rest ih =>
      intro acc a h
      simp only [structuralLoop] at h
      split at h
      · exact ih _ a h
      · split at h
        · rcases ih _ a h with h' | h'
          · exact mem_keepFoldl root _ _ _ h'
          · exact Or.inr h'
        · exact mem_keepFoldl root _ _ _ h

theorem mem_headingLoop (root : Node) :
    ∀ (hps : List Path) (acc : List Article) (a : Article),
      a ∈ headingLoop root hps acc →
      a ∈ acc ∨ ∃ hp ∈ hps, isLikelyArticleTitle root hp = true ∧
        a = extractArticleFromHeading root hp ∧ articleKeep a = true := by
  intro hps
  induction hps with
  | nil => intro acc a h; exact Or.inl h
  | cons hp rest ih =>
      intro acc a h
      simp only [headingLoop] at h
      split at h
      next hlik =>
        split at h
        next hkeep =>
          rcases ih _ a h with h' | h'
          · rcases List.mem_append.mp h' with h'' | h''
            · exact Or.inl h''
            · have ha := List.mem_singleton.mp h''
              exact Or.inr ⟨hp, List.mem_cons_self _ _, hlik, ha, ha ▸ hkeep⟩
          · rcases h' with ⟨q, hq, hrest⟩
            exact Or.inr ⟨q, List.mem_cons_of_mem _ hq, hrest⟩
        next hkeep =>
          rcases ih _ a h with h' | h'
          · exact Or.inl h'
          · rcases h' with ⟨q, hq, hrest⟩
            exact Or.inr ⟨q, List.mem_cons_of_mem _ hq, hrest⟩
      next hlik =>
        rcases ih _ a h with h' | h'
        · exact Or.inl h'
        · rcases h' with ⟨q, hq, hrest⟩
          exact Or.inr ⟨q, List.mem_cons_of_mem _ hq, hrest⟩

theorem articleKeep_title_ne_empty (a : Article) (h : articleKeep a = true) :
    a.title.getD "" ≠ "" := by
  have h2 := (Bool.and_eq_true _ _).mp h
  intro he
  rw [he] at h2
  exact absurd h2.2 (by decide)

/-- C2: every article in the extractor output has a non-empty title, on both
the structural pass and the heading fallback; total failure gives the empty
list, not an error (the extractor is a total function of the parsed tree). -/
theorem C2_extracted_titles_nonempty (root : Node) (a : Article)
    (h : a ∈ extractArticles root) : a.title.getD "" ≠ "" := by
  simp only [extractArticles] at h
  split at h
  · rcases mem_headingLoop root _ _ a h with h' | ⟨_, _, _, _, hk⟩
    · simp at h'
    · exact articleKeep_title_ne_empty a hk
  · rcases mem_structuralLoop root _ _ a h with h' | hk
    · simp at h'
    · exact articleKeep_title_ne_empty a hk

/-- Witness for C2 at a concrete document and extracted article. -/
theorem C2_witness : (articleStructured.title.getD "") ≠ "" :=
  C2_extracted_titles_nonempty docStructured articleStructured (by decide)

theorem firstNonempty_ne_nil :
    ∀ (ls : List (List Article)) (l : List Article),
      firstNonempty ls = some l → l ≠ [] := by
  intro ls
  induction ls with
  | nil => intro l h; exact absurd h (by simp [firstNonempty])
  | cons x xs ih =>
      intro l h
      simp only [firstNonempty] at h
      split at h
      · exact ih l h
      · next hx =>
          obtain rfl : x = l := Option.some.inj h
          intro hnil
          rw [hnil] at hx
          simp at hx

theorem structuralLoop_eq_firstNonempty (root : Node) :
    ∀ sels : List (List Sel),
      structuralLoop root sels [] =
        (firstNonempty (sels.map (patternArticles root))).getD [] := by
  intro sels
  induction sels with
  | nil => rfl
  | cons g rest ih =>
      simp only [structuralLoop, List.map_cons, firstNonempty, patternArticles]
      by_cases he : (select root [] g).isEmpty
      · rw [if_pos he]
        have hempty : (select root [] g).foldl (fun acc ep =>
            let a := extractArticleData root ep
            if articleKeep a then acc ++ [a] else acc) ([] : List Article) = [] := by
          rw [List.isEmpty_iff.mp he]
          rfl
        rw [ih, hempty]
        simp
      · rw [if_neg he]
        by_cases h2 : ((select root [] g).foldl (fun acc ep =>
            let a := extractArticleData root ep
            if articleKeep a then acc ++ [a] else acc) ([] : List Article)).isEmpty
        · rw [if_pos h2, List.isEmpty_iff.mp h2, ih]
          simp
        · rw [if_neg h2, if_neg h2]
          simp

/-- C7: structural patterns are tried in their fixed order and the first one
producing a qualifying article supplies the whole result (articles of one
pattern only); the heading fallback runs exactly when no structural pattern
produced a qualifying article. -/
theorem C7_first_qualifying_pattern (root : Node) :
    extractArticles root =
      match firstNonempty (articleSelectors.map (patternArticles root)) with
      | some arts => arts
      | none => headingLoop root (headingPaths root) [] := by
  simp only [extractArticles]
  rw [structuralLoop_eq_firstNonempty]
  cases hf : firstNonempty (articleSelectors.map (patternArticles root)) with
  | none => simp
  | some arts =>
      have hne : arts ≠ [] := firstNonempty_ne_nil _ _ hf
      simp [hne]

theorem isLikely_length_bounds (root : Node) (p : Path)
    (h : isLikelyArticleTitle root p = true) :
    10 ≤ (pyStrip (getText (nodeAtD root p))).length ∧
      (pyStrip (getText (nodeAtD root p))).length ≤ 200 := by
  simp only [isLikelyArticleTitle] at h
  split at h
  · exact absurd h (by simp)
  · next hcond =>
      simp only [Bool.or_eq_true, decide_eq_true_eq, not_or] at hcond
      omega

theorem ehTitleStep_title (root : Node) (p : Path) :
    (ehTitleStep root p).title = some (pyStrip (getText (nodeAtD root p))) := by
  simp only [ehTitleStep]
  split
  · split <;> rfl
  · rfl

theorem ehDateStep_title (root : Node) (p : Path) (a : Article) :
    (ehDateStep root p a).title = a.title := by
  simp only [ehDateStep]
  split
  · split <;> rfl
  · rfl

theorem ehContentStep_title (root : Node) (p : Path) (a : Article) :
    (ehContentStep root p a).title = a.title := by
  simp only [ehContentStep]
  split <;> rfl

theorem extractArticleFromHeading_title (root : Node) (p : Path) :
    (extractArticleFromHeading root p).title =
      some (pyStrip (getText (nodeAtD root p))) := by
  simp only [extractArticleFromHeading]
  rw [ehContentStep_title, ehDateStep_title, ehTitleStep_title]

/-- C10: when the structural pass yields nothing, every extracted article's
title comes from an accepted heading, so its length lies in [10, 200]. -/
theorem C10_heading_fallback_title_bounds (root : Node) (a : Article)
    (hstruct : structuralLoop root articleSelectors [] = [])
    (ha : a ∈ extractArticles root) :
    ∃ t : String, a.title = some t ∧ 10 ≤ t.length ∧ t.length ≤ 200 := by
  simp only [extractArticles, hstruct] at ha
  rcases mem_headingLoop root _ _ a (by simpa using ha) with h' | ⟨hp, _, hlik, ha', _⟩
  · simp at h'
  · obtain ⟨h1, h2⟩ := isLikely_length_bounds root hp hlik
    exact ⟨pyStrip (getText (nodeAtD root hp)),
      by rw [ha', extractArticleFromHeading_title], h1, h2⟩

/-- Witness for C10 at a concrete heading-fallback document. -/
theorem C10_witness :
    ∃ t : String, articleHeading.title = some t ∧ 10 ≤ t.length ∧
      t.length ≤ 200 :=
  C10_heading_fallback_title_bounds docHeadingOnly articleHeading (by decide)
    (by decide)

/-! ### Content extraction: C5 and C6 -/

theorem head?_filter {α : Type} (f : α → Bool) :
    ∀ l : List α, (l.filter f).head? = l.find? f := by
  intro l
  induction l with
  | nil => rfl
  | cons a l ih =>
      by_cases h : f a
      · simp [List.filter_cons, h, List.find?_cons_of_pos]
      · simp [List.filter_cons, h, List.find?_cons_of_neg, ih]

theorem edContentStep_content_some (root : Node) (p : Path) (a : Article)
    (cp : Path) (h : selectOne root p contentSelGroup = some cp) :
    (edContentStep root p a).content =
      some (pyStrip (getText (nodeAtD root cp))) := by
  simp only [edContentStep, h]

theorem edTitleContentStep_content_isSome (root : Node) (p : Path) (a : Article)
    (h : a.content.isSome = true) :
    (edTitleContentStep root p a).content = a.content := by
  have hnone : a.content.isNone = false := by
    cases hc : a.content
    · rw [hc] at h
      exact absurd h (by decide)
    · rfl
  simp [edTitleContentStep, hnone]

/-- Counterexample to C5 as stated: in `docC5` a paragraph precedes the
description-class element in document order, so the code takes the paragraph
text while the claim's class-selector-priority rule takes the description
text. -/
theorem C5_counterexample :
    (extractArticleData docC5 []).content = some "para text here" ∧
    contentSpecC5 docC5 [] = some "desc text" ∧
    (extractArticleData docC5 []).content ≠ contentSpecC5 docC5 [] := by
  refine ⟨by decide, by decide, by decide⟩

/-- C5 amended: the content of a matched container is the trimmed text of the
first descendant in document order matching any alternative of the combined
content selector (the class alternatives and the paragraph tag together, with
no class-first priority); and when no alternative matches at all, no
paragraph descendant exists, so the paragraph-joining fallback can never
fire. -/
theorem C5_amended_content_first_match_doc_order (root : Node) (p : Path) :
    (∀ cp : Path,
        (descPaths root p).find? (selMatchAt root contentSelGroup) = some cp →
        (extractArticleData root p).content =
          some (pyStrip (getText (nodeAtD root cp)))) ∧
    ((descPaths root p).find? (selMatchAt root contentSelGroup) = none →
        findDesc root p (fun n => tagIs n "p") = none) := by
  constructor
  · intro cp hcp
    have hsel : selectOne root p contentSelGroup = some cp := by
      rw [selectOne, select, head?_filter]
      exact hcp
    have h1 := edContentStep_content_some root p
      (edDateStep root p (edLinkFallbackStep root p (edTitleStep root p))) cp hsel
    simp only [extractArticleData]
    rw [edTitleContentStep_content_isSome root p _ (by rw [h1]; rfl), h1]
  · intro hnone
    rw [findDesc]
    apply List.find?_eq_none.mpr
    intro q hq hcontra
    apply List.find?_eq_none.mp hnone q hq
    cases hn : nodeAt root q with
    | none =>
        rw [hn] at hcontra
        exact absurd hcontra (by simp)
    | some n =>
        rw [hn] at hcontra
        simp only at hcontra
        simp only [selMatchAt, hn]
        apply List.any_eq_true.mpr
        refine ⟨Sel.tag "p", by simp [contentSelGroup], ?_⟩
        simpa [matchesSel, tagIs] using hcontra

theorem siblingParagraphs_eq_texts (root : Node) :
    ∀ sibs : List Path,
      siblingParagraphs root sibs = siblingParagraphTexts root sibs := by
  intro sibs
  induction sibs with
  | nil => rfl
  | cons q rest ih =>
      simp only [siblingParagraphs, siblingParagraphTexts]
      cases ht : nodeTag root q with
      | none =>
          have hstop : isStopHeading root q = false := by
            simp [isStopHeading, ht]
          simp only [List.takeWhile]
          rw [hstop]
          simp only [Bool.not_false, List.filter_cons]
          rw [ht]
          simpa [siblingParagraphTexts] using ih
      | some t =>
          by_cases hp : t = "p"
          · subst hp
            have hstop : isStopHeading root q = false := by
              simp [isStopHeading, ht, stopHeadingTags]
            simp only [List.takeWhile]
            rw [hstop]
            simp only [Bool.not_false, List.filter_cons]
            rw [ht]
            simp only [if_pos rfl, beq_self_eq_true, if_true, List.map_cons]
            rw [ih]
            rfl
          · by_cases hs : stopHeadingTags.contains t = true
            · have hsmem : t ∈ stopHeadingTags := by simpa using hs
              have hstop : isStopHeading root q = true := by
                simp only [isStopHeading, ht]
                exact hs
              simp only [List.takeWhile]
              rw [hstop]
              simp [hp, hs, hsmem]
            · have hsb : stopHeadingTags.contains t = false :=
                (Bool.not_eq_true _).mp hs
              have hstop : isStopHeading root q = false := by
                simp only [isStopHeading, ht]
                exact hsb
              simp only [List.takeWhile]
              rw [hstop]
              simp only [Bool.not_false, List.filter_cons]
              rw [ht]
              have hne2 : ((some t == some "p") = false) := by simp [hp]
              rw [hne2]
              simp only [if_neg hp, Bool.false_eq_true, if_false]
              rw [if_neg (by rw [hsb]; exact Bool.false_ne_true)]
              rw [ih]
              rfl

theorem ehTitleStep_content (root : Node) (p : Path) :
    (ehTitleStep root p).content = none := by
  simp only [ehTitleStep]
  split
  · split <;> rfl
  · rfl

theorem ehDateStep_content (root : Node) (p : Path) (a : Article) :
    (ehDateStep root p a).content = a.content := by
  simp only [ehDateStep]
  split
  · split <;> rfl
  · rfl

/-- Counterexample to C6 as stated: in `docC6` the accepted h3 heading is
followed by a paragraph, then an h4 heading of strictly lower structural
level, then another paragraph; the claim's walk continues past the h4 and
joins both paragraphs, while the code stops at the h4. -/
theorem C6_counterexample :
    isLikelyArticleTitle docC6 [0] = true ∧
    (extractArticleFromHeading docC6 [0]).content = some "First para." ∧
    contentSpecC6 docC6 [0] = some "First para.\nSecond para." ∧
    (extractArticleFromHeading docC6 [0]).content ≠ contentSpecC6 docC6 [0] := by
  refine ⟨by decide, by decide, by decide, by decide⟩

/-- C6 amended: the heading-based content is the newline-joined trimmed text
of the paragraph siblings directly following the heading, where the walk
stops at the first following sibling heading of any of the levels h1..h4,
regardless of the accepted heading's own level (and visits only direct
siblings, never descendants). -/
theorem C6_amended_stop_at_any_heading (root : Node) (p : Path) :
    (extractArticleFromHeading root p).content =
      (if (siblingParagraphTexts root (siblingsAfter root p)).isEmpty then none
       else some (String.intercalate "\n"
         (siblingParagraphTexts root (siblingsAfter root p)))) := by
  simp only [extractArticleFromHeading, ehContentStep]
  rw [siblingParagraphs_eq_texts]
  by_cases hne : (siblingParagraphTexts root (siblingsAfter root p)).isEmpty
  · simp [hne, ehDateStep_content, ehTitleStep_content]
  · simp [hne]

end BlogDiff
